import Mathlib

/-!
# panda/board/utils.h

Shallow embedding of the helpers of `panda/board/utils.h`:

* `MIN`, `MAX`, `CLAMP`: statement-expression macros; every argument is
  evaluated once into a local and the locals are compared with `<` / `>`.
* `COMPILE_TIME_ASSERT`: the array-size expression inside its `sizeof`.
* `get_ts_elapsed`: `uint32_t` subtraction of two counter samples.

A `uint32_t` value is a natural number below `U32_MOD = 2 ^ 32`.  Unsigned
arithmetic in C yields the mathematical result reduced modulo `2 ^ 32`; this
is what `wrap_u32` does.
-/

namespace Utils

/-- Number of values of a `uint32_t`. -/
def U32_MOD : Nat := 2 ^ 32

/-- Predicate: the natural number is a value of type `uint32_t`. -/
def IsU32 (v : Nat) : Prop := v < U32_MOD

instance (v : Nat) : Decidable (IsU32 v) := by
  unfold IsU32; exact inferInstance

/-- Conversion of a mathematical integer to `uint32_t`: the unique
representative modulo `2 ^ 32` in `[0, 2 ^ 32)`. -/
def wrap_u32 (i : Int) : Nat := (i % (U32_MOD : Int)).toNat

/-- Macro `MIN(a, b)`: `(_a < _b) ? _a : _b`. -/
def MIN (a b : Int) : Int :=
  let _a := a
  let _b := b
  if _a < _b then _a else _b

/-- Macro `MAX(a, b)`: `(_a > _b) ? _a : _b`. -/
def MAX (a b : Int) : Int :=
  let _a := a
  let _b := b
  if _a > _b then _a else _b

/-- Macro `CLAMP(x, low, high)`:
`(__x > __high) ? __high : ((__x < __low) ? __low : __x)`. -/
def CLAMP (x low high : Int) : Int :=
  let __x := x
  let __low := low
  let __high := high
  if __x > __high then __high else (if __x < __low then __low else __x)

/-- Function `uint32_t get_ts_elapsed(uint32_t ts, uint32_t ts_last)`:
`return ts - ts_last;`.  Both operands and the return type are `uint32_t`, so
the value returned is the integer difference converted to `uint32_t`. -/
def get_ts_elapsed (ts ts_last : Nat) : Nat :=
  wrap_u32 ((ts : Int) - (ts_last : Int))

/-- Operator `!` of C on an `int` operand: `1` when the operand compares equal
to `0`, and `0` otherwise; the result has type `int`. -/
def lnot (pred : Int) : Int := if pred = 0 then 1 else 0

/-- Array-size expression of the macro `COMPILE_TIME_ASSERT(pred)`, which is
`((void)sizeof(char[1 - (2 * ((int)(!(pred))))]))`: the value
`1 - (2 * ((int)(!(pred))))`.  The cast to `int` leaves the `int` result of `!`
unchanged. -/
def COMPILE_TIME_ASSERT_size (pred : Int) : Int :=
  1 - (2 * (lnot pred))

/-! ## Shared lemmas -/

theorem U32_MOD_pos : 0 < U32_MOD := by
  unfold U32_MOD; positivity

theorem wrap_u32_lt (i : Int) : wrap_u32 i < U32_MOD := by
  unfold wrap_u32
  have hpos : (0 : Int) < (U32_MOD : Int) := by exact_mod_cast U32_MOD_pos
  have h1 := Int.emod_nonneg i (ne_of_gt hpos)
  have h2 := Int.emod_lt_of_pos i hpos
  omega

theorem wrap_u32_cast (i : Int) : ((wrap_u32 i : Nat) : Int) = i % (U32_MOD : Int) := by
  unfold wrap_u32
  have hpos : (0 : Int) < (U32_MOD : Int) := by exact_mod_cast U32_MOD_pos
  exact Int.toNat_of_nonneg (Int.emod_nonneg i (ne_of_gt hpos))

/-- When the later sample is not smaller, the `uint32_t` difference is the
ordinary difference. -/
theorem get_ts_elapsed_of_le (ts ts_last : Nat) (hts : ts < U32_MOD)
    (hle : ts_last ≤ ts) : get_ts_elapsed ts ts_last = ts - ts_last := by
  have hc := wrap_u32_cast ((ts : Int) - (ts_last : Int))
  have hlt := wrap_u32_lt ((ts : Int) - (ts_last : Int))
  unfold get_ts_elapsed
  unfold U32_MOD at *
  omega

/-- When the later sample is smaller, the `uint32_t` difference is the
ordinary difference plus `2 ^ 32`. -/
theorem get_ts_elapsed_of_lt (ts ts_last : Nat) (hlast : ts_last < U32_MOD)
    (hlt : ts < ts_last) : get_ts_elapsed ts ts_last = ts + U32_MOD - ts_last := by
  have hc := wrap_u32_cast ((ts : Int) - (ts_last : Int))
  have hb := wrap_u32_lt ((ts : Int) - (ts_last : Int))
  unfold get_ts_elapsed
  unfold U32_MOD at *
  omega

/-- Sampling the counter `n < 2 ^ 32` ticks after `ts_last` and subtracting
gives back `n`. -/
theorem get_ts_elapsed_add (ts_last n : Nat) (hlast : ts_last < U32_MOD)
    (hn : n < U32_MOD) : get_ts_elapsed ((ts_last + n) % U32_MOD) ts_last = n := by
  rcases Nat.lt_or_ge (ts_last + n) U32_MOD with h | h
  · rw [Nat.mod_eq_of_lt h, get_ts_elapsed_of_le _ _ h (Nat.le_add_right _ _)]
    omega
  · have hmod : (ts_last + n) % U32_MOD = ts_last + n - U32_MOD := by
      rw [Nat.mod_eq_sub_mod h, Nat.mod_eq_of_lt (by omega)]
    rw [hmod, get_ts_elapsed_of_lt _ _ hlast (by omega)]
    omega

/-! ## Claims -/

/-- C1 (modular consistency): for all `uint32_t` values `ts`, `ts_last`, the
result of `get_ts_elapsed ts ts_last` equals `(ts - ts_last + 2^32) mod 2^32`
computed over the mathematical integers. -/
theorem get_ts_elapsed_modular (ts ts_last : Nat) (hts : IsU32 ts)
    (hlast : IsU32 ts_last) :
    ((get_ts_elapsed ts ts_last : Nat) : Int)
      = ((ts : Int) - (ts_last : Int) + 2 ^ 32) % 2 ^ 32 := by
  unfold IsU32 at hts hlast
  rcases Nat.lt_or_ge ts ts_last with h | h
  · rw [get_ts_elapsed_of_lt ts ts_last hlast h]
    unfold U32_MOD at *
    omega
  · rw [get_ts_elapsed_of_le ts ts_last hts h]
    unfold U32_MOD at *
    omega

theorem get_ts_elapsed_modular_witness :
    ((get_ts_elapsed 50 100 : Nat) : Int)
      = (((50 : Nat) : Int) - ((100 : Nat) : Int) + 2 ^ 32) % 2 ^ 32 :=
  get_ts_elapsed_modular 50 100 (by decide) (by decide)

/-- C2 (single-wrap correctness): if `ts_last` is a `uint32_t` sample and the
counter advanced by `n < 2^32` ticks, so that the later sample is
`(ts_last + n) mod 2^32`, then `get_ts_elapsed` returns exactly `n`, whether
or not the counter wrapped in between. -/
theorem get_ts_elapsed_single_wrap (ts_last n : Nat) (hlast : IsU32 ts_last)
    (hn : n < 2 ^ 32) : get_ts_elapsed ((ts_last + n) % 2 ^ 32) ts_last = n :=
  get_ts_elapsed_add ts_last n hlast hn

theorem get_ts_elapsed_single_wrap_witness :
    IsU32 4294967290 ∧ 10 < 2 ^ 32
      ∧ get_ts_elapsed ((4294967290 + 10) % 2 ^ 32) 4294967290 = 10 :=
  ⟨by decide, by decide, get_ts_elapsed_single_wrap 4294967290 10 (by decide) (by decide)⟩

/-- C3 (wrap case): for `uint32_t` values with `ts < ts_last`, the result of
`get_ts_elapsed ts ts_last` is the integer `2^32 - ts_last + ts`, which lies
in the unsigned range `[0, 2^32)`. -/
theorem get_ts_elapsed_wrap_case (ts ts_last : Nat) (hts : IsU32 ts)
    (hlast : IsU32 ts_last) (hlt : ts < ts_last) :
    ((get_ts_elapsed ts ts_last : Nat) : Int) = 2 ^ 32 - (ts_last : Int) + (ts : Int)
      ∧ (0 : Int) ≤ 2 ^ 32 - (ts_last : Int) + (ts : Int)
      ∧ 2 ^ 32 - (ts_last : Int) + (ts : Int) < 2 ^ 32 := by
  unfold IsU32 at hts hlast
  rw [get_ts_elapsed_of_lt ts ts_last hlast hlt]
  unfold U32_MOD at *
  omega

theorem get_ts_elapsed_wrap_case_witness :
    ((get_ts_elapsed 50 100 : Nat) : Int)
        = 2 ^ 32 - ((100 : Nat) : Int) + ((50 : Nat) : Int)
      ∧ (0 : Int) ≤ 2 ^ 32 - ((100 : Nat) : Int) + ((50 : Nat) : Int)
      ∧ 2 ^ 32 - ((100 : Nat) : Int) + ((50 : Nat) : Int) < 2 ^ 32 :=
  get_ts_elapsed_wrap_case 50 100 (by decide) (by decide) (by decide)

/-- C4 (forward case): for `uint32_t` values with `ts_last ≤ ts`, the result
of `get_ts_elapsed ts ts_last` is the ordinary integer difference
`ts - ts_last`. -/
theorem get_ts_elapsed_forward_case (ts ts_last : Nat) (hts : IsU32 ts)
    (_hlast : IsU32 ts_last) (hle : ts_last ≤ ts) :
    ((get_ts_elapsed ts ts_last : Nat) : Int) = (ts : Int) - (ts_last : Int) := by
  unfold IsU32 at hts
  rw [get_ts_elapsed_of_le ts ts_last hts hle]
  omega

theorem get_ts_elapsed_forward_case_witness :
    ((get_ts_elapsed 100 50 : Nat) : Int) = ((100 : Nat) : Int) - ((50 : Nat) : Int) :=
  get_ts_elapsed_forward_case 100 50 (by decide) (by decide) (by decide)

/-- C5 (multi-wrap aliasing): for a `uint32_t` sample `ts_last` and any true
tick count `n`, `get_ts_elapsed ((ts_last + n) mod 2^32) ts_last = n mod 2^32`;
when `n ≥ 2^32` the result coincides with the one for the smaller tick count
`n mod 2^32` and is different from `n`. -/
theorem get_ts_elapsed_multi_wrap (ts_last n : Nat) (hlast : IsU32 ts_last) :
    get_ts_elapsed ((ts_last + n) % 2 ^ 32) ts_last = n % 2 ^ 32
      ∧ (2 ^ 32 ≤ n →
          n % 2 ^ 32 < n
          ∧ get_ts_elapsed ((ts_last + n) % 2 ^ 32) ts_last
              = get_ts_elapsed ((ts_last + n % 2 ^ 32) % 2 ^ 32) ts_last
          ∧ get_ts_elapsed ((ts_last + n) % 2 ^ 32) ts_last ≠ n) := by
  have hm : n % 2 ^ 32 < U32_MOD := Nat.mod_lt _ (by norm_num)
  have hsmall := get_ts_elapsed_add ts_last (n % 2 ^ 32) hlast hm
  have hmod : (ts_last + n) % 2 ^ 32 = (ts_last + n % 2 ^ 32) % U32_MOD := by
    unfold U32_MOD; omega
  have hsmall2 : get_ts_elapsed ((ts_last + n % 2 ^ 32) % 2 ^ 32) ts_last = n % 2 ^ 32 :=
    hsmall
  have hmain : get_ts_elapsed ((ts_last + n) % 2 ^ 32) ts_last = n % 2 ^ 32 := by
    rw [hmod]; exact hsmall
  refine ⟨hmain, fun hge => ⟨?_, ?_, ?_⟩⟩
  · unfold U32_MOD at hm; omega
  · rw [hmain, hsmall2]
  · rw [hmain]; unfold U32_MOD at hm; omega

theorem get_ts_elapsed_multi_wrap_witness :
    IsU32 7
      ∧ get_ts_elapsed ((7 + 4294967301) % 2 ^ 32) 7 = 4294967301 % 2 ^ 32
      ∧ (2 ^ 32 ≤ 4294967301 →
          4294967301 % 2 ^ 32 < 4294967301
          ∧ get_ts_elapsed ((7 + 4294967301) % 2 ^ 32) 7
              = get_ts_elapsed ((7 + 4294967301 % 2 ^ 32) % 2 ^ 32) 7
          ∧ get_ts_elapsed ((7 + 4294967301) % 2 ^ 32) 7 ≠ 4294967301) :=
  ⟨by decide, get_ts_elapsed_multi_wrap 7 4294967301 (by decide)⟩

/-- C6 (identity): for every `uint32_t` value `x`, `get_ts_elapsed x x = 0`. -/
theorem get_ts_elapsed_identity (x : Nat) (hx : IsU32 x) : get_ts_elapsed x x = 0 := by
  unfold IsU32 at hx
  rw [get_ts_elapsed_of_le x x hx (Nat.le_refl x)]
  omega

theorem get_ts_elapsed_identity_witness :
    IsU32 4294967295 ∧ get_ts_elapsed 4294967295 4294967295 = 0 :=
  ⟨by decide, get_ts_elapsed_identity 4294967295 (by decide)⟩

/-- C7 (concrete examples): `get_ts_elapsed 100 50 = 50`,
`get_ts_elapsed 50 100 = 4294967246`, `get_ts_elapsed 0 0 = 0` and
`get_ts_elapsed 0 4294967295 = 1`. -/
theorem get_ts_elapsed_examples :
    get_ts_elapsed 100 50 = 50
      ∧ get_ts_elapsed 50 100 = 4294967246
      ∧ get_ts_elapsed 0 0 = 0
      ∧ get_ts_elapsed 0 4294967295 = 1 := by
  refine ⟨?_, ?_, ?_, ?_⟩ <;> decide

/-- C8 (totality and range): for every pair of `uint32_t` inputs
`get_ts_elapsed` returns a value `r`, and `0 ≤ r ≤ 2^32 - 1`. -/
theorem get_ts_elapsed_total_range (ts ts_last : Nat) (_hts : IsU32 ts)
    (_hlast : IsU32 ts_last) :
    ∃ r : Nat, get_ts_elapsed ts ts_last = r
      ∧ (0 : Int) ≤ (r : Int) ∧ (r : Int) ≤ 2 ^ 32 - 1 := by
  refine ⟨get_ts_elapsed ts ts_last, rfl, ?_, ?_⟩
  · exact Int.ofNat_nonneg _
  · have h := wrap_u32_lt ((ts : Int) - (ts_last : Int))
    unfold get_ts_elapsed
    unfold U32_MOD at h
    omega

theorem get_ts_elapsed_total_range_witness :
    ∃ r : Nat, get_ts_elapsed 0 4294967295 = r
      ∧ (0 : Int) ≤ (r : Int) ∧ (r : Int) ≤ 2 ^ 32 - 1 :=
  get_ts_elapsed_total_range 0 4294967295 (by decide) (by decide)

/-- C9 (CLAMP with ordered bounds): for integers `x`, `low`, `high` with
`low ≤ high`, `CLAMP x low high` lies in `[low, high]`, equals `x` when
`low ≤ x ≤ high`, equals `low` when `x < low`, equals `high` when `x > high`,
and equals `MIN (MAX x low) high`. -/
theorem CLAMP_ordered (x low high : Int) (h : low ≤ high) :
    low ≤ CLAMP x low high ∧ CLAMP x low high ≤ high
      ∧ (low ≤ x ∧ x ≤ high → CLAMP x low high = x)
      ∧ (x < low → CLAMP x low high = low)
      ∧ (x > high → CLAMP x low high = high)
      ∧ CLAMP x low high = MIN (MAX x low) high := by
  simp only [CLAMP, MIN, MAX]
  refine ⟨?_, ?_, ?_, ?_, ?_, ?_⟩ <;> split_ifs <;> omega

theorem CLAMP_ordered_witness :
    (0 : Int) ≤ 10
      ∧ (0 ≤ CLAMP 15 0 10 ∧ CLAMP 15 0 10 ≤ 10
          ∧ ((0 : Int) ≤ 15 ∧ (15 : Int) ≤ 10 → CLAMP 15 0 10 = 15)
          ∧ ((15 : Int) < 0 → CLAMP 15 0 10 = 0)
          ∧ ((15 : Int) > 10 → CLAMP 15 0 10 = 10)
          ∧ CLAMP 15 0 10 = MIN (MAX 15 0) 10) :=
  ⟨by decide, CLAMP_ordered 15 0 10 (by decide)⟩

/-- C10 (MIN and MAX): for all integers `a`, `b`, `MIN a b` is one of `a`, `b`
and is `≤` both, `MAX a b` is one of `a`, `b` and is `≥` both, and
`MIN a b + MAX a b = a + b`. -/
theorem MIN_MAX_order (a b : Int) :
    (MIN a b = a ∨ MIN a b = b) ∧ MIN a b ≤ a ∧ MIN a b ≤ b
      ∧ (MAX a b = a ∨ MAX a b = b) ∧ a ≤ MAX a b ∧ b ≤ MAX a b
      ∧ MIN a b + MAX a b = a + b := by
  simp only [MIN, MAX]
  refine ⟨?_, ?_, ?_, ?_, ?_, ?_, ?_⟩ <;> split_ifs <;> omega

/-- C11 (COMPILE_TIME_ASSERT array size): for every `int` value `pred`, the
array-size expression `1 - 2 * (int)(!pred)` equals `1` when `pred` is
non-zero and `-1` when `pred` is zero, so the size is positive if and only if
`pred` holds. -/
theorem COMPILE_TIME_ASSERT_size_sign (pred : Int) :
    (pred ≠ 0 → COMPILE_TIME_ASSERT_size pred = 1)
      ∧ (pred = 0 → COMPILE_TIME_ASSERT_size pred = -1)
      ∧ (0 < COMPILE_TIME_ASSERT_size pred ↔ pred ≠ 0) := by
  unfold COMPILE_TIME_ASSERT_size lnot
  by_cases h : pred = 0
  · simp [h]
  · simp [h]

/-- C12 (reconstruction): for `uint32_t` values `ts`, `ts_last`, adding the
result of `get_ts_elapsed ts ts_last` to `ts_last` modulo `2^32` gives `ts`
back; in particular the result is `0` only when `ts = ts_last`. -/
theorem get_ts_elapsed_round_trip (ts ts_last : Nat) (hts : IsU32 ts)
    (hlast : IsU32 ts_last) :
    (ts_last + get_ts_elapsed ts ts_last) % 2 ^ 32 = ts
      ∧ (get_ts_elapsed ts ts_last = 0 → ts = ts_last) := by
  unfold IsU32 at hts hlast
  rcases Nat.lt_or_ge ts ts_last with h | h
  · rw [get_ts_elapsed_of_lt ts ts_last hlast h]
    unfold U32_MOD at *
    omega
  · rw [get_ts_elapsed_of_le ts ts_last hts h]
    unfold U32_MOD at *
    omega

theorem get_ts_elapsed_round_trip_witness :
    IsU32 5 ∧ IsU32 4294967290
      ∧ (4294967290 + get_ts_elapsed 5 4294967290) % 2 ^ 32 = 5
      ∧ (get_ts_elapsed 5 4294967290 = 0 → 5 = 4294967290) :=
  ⟨by decide, by decide, get_ts_elapsed_round_trip 5 4294967290 (by decide) (by decide)⟩

/-- C13 (additivity over an intermediate sample): for `uint32_t` values `a`,
`b`, `c`, `get_ts_elapsed c a` equals
`(get_ts_elapsed c b + get_ts_elapsed b a) mod 2^32`. -/
theorem get_ts_elapsed_additive (a b c : Nat) (ha : IsU32 a) (hb : IsU32 b)
    (hc : IsU32 c) :
    get_ts_elapsed c a = (get_ts_elapsed c b + get_ts_elapsed b a) % 2 ^ 32 := by
  unfold IsU32 at ha hb hc
  have hca : get_ts_elapsed c a = if c < a then c + U32_MOD - a else c - a := by
    split_ifs with h
    · exact get_ts_elapsed_of_lt c a ha h
    · exact get_ts_elapsed_of_le c a hc (Nat.le_of_not_lt h)
  have hcb : get_ts_elapsed c b = if c < b then c + U32_MOD - b else c - b := by
    split_ifs with h
    · exact get_ts_elapsed_of_lt c b hb h
    · exact get_ts_elapsed_of_le c b hc (Nat.le_of_not_lt h)
  have hba : get_ts_elapsed b a = if b < a then b + U32_MOD - a else b - a := by
    split_ifs with h
    · exact get_ts_elapsed_of_lt b a ha h
    · exact get_ts_elapsed_of_le b a hb (Nat.le_of_not_lt h)
  rw [hca, hcb, hba]
  unfold U32_MOD at *
  split_ifs <;> omega

theorem get_ts_elapsed_additive_witness :
    IsU32 4294967000 ∧ IsU32 4294967200 ∧ IsU32 100
      ∧ get_ts_elapsed 100 4294967000
          = (get_ts_elapsed 100 4294967200 + get_ts_elapsed 4294967200 4294967000) % 2 ^ 32 :=
  ⟨by decide, by decide, by decide,
    get_ts_elapsed_additive 4294967000 4294967200 100 (by decide) (by decide) (by decide)⟩

/-- C14 (swapped arguments): for distinct `uint32_t` values `x`, `y`, the two
orders of subtraction add up to exactly `2^32`, so the swapped call returns
`2^32` minus the true distance. -/
theorem get_ts_elapsed_swapped (x y : Nat) (hx : IsU32 x) (hy : IsU32 y)
    (hne : x ≠ y) :
    get_ts_elapsed x y + get_ts_elapsed y x = 2 ^ 32
      ∧ ((get_ts_elapsed y x : Nat) : Int) = 2 ^ 32 - ((get_ts_elapsed x y : Nat) : Int) := by
  unfold IsU32 at hx hy
  rcases Nat.lt_or_ge x y with h | h
  · rw [get_ts_elapsed_of_lt x y hy h, get_ts_elapsed_of_le y x hy (Nat.le_of_lt h)]
    unfold U32_MOD at *
    omega
  · have hlt : y < x := lt_of_le_of_ne h (Ne.symm hne)
    rw [get_ts_elapsed_of_le x y hx h, get_ts_elapsed_of_lt y x hx hlt]
    unfold U32_MOD at *
    omega

theorem get_ts_elapsed_swapped_witness :
    IsU32 100 ∧ IsU32 50 ∧ 100 ≠ 50
      ∧ get_ts_elapsed 100 50 + get_ts_elapsed 50 100 = 2 ^ 32
      ∧ ((get_ts_elapsed 50 100 : Nat) : Int)
          = 2 ^ 32 - ((get_ts_elapsed 100 50 : Nat) : Int) :=
  ⟨by decide, by decide, by decide,
    get_ts_elapsed_swapped 100 50 (by decide) (by decide) (by decide)⟩

/-- C15 (CLAMP with inverted bounds): for integers `x`, `low`, `high` with
`high < low`, `CLAMP x low high` is `high` when `x > high` and `low`
otherwise; it is never `x`; between the bounds the upper-bound test wins and
the result is `high`; `MIN (MAX x low) high` is always `high`, so the two
differ exactly when `x ≤ high`, and such an `x` exists. -/
theorem CLAMP_inverted (x low high : Int) (h : high < low) :
    (x > high → CLAMP x low high = high)
      ∧ (¬ x > high → CLAMP x low high = low)
      ∧ CLAMP x low high ≠ x
      ∧ (x > high ∧ x < low → CLAMP x low high = high)
      ∧ MIN (MAX x low) high = high
      ∧ (x ≤ high → CLAMP x low high ≠ MIN (MAX x low) high)
      ∧ (∃ x0 : Int, CLAMP x0 low high ≠ MIN (MAX x0 low) high) := by
  refine ⟨?_, ?_, ?_, ?_, ?_, ?_, ⟨high, ?_⟩⟩ <;>
    simp only [CLAMP, MIN, MAX] <;> split_ifs <;> omega

theorem CLAMP_inverted_witness :
    (5 : Int) < 10
      ∧ ((7 : Int) > 5 → CLAMP 7 10 5 = 5)
      ∧ (¬ (7 : Int) > 5 → CLAMP 7 10 5 = 10)
      ∧ CLAMP 7 10 5 ≠ 7
      ∧ ((7 : Int) > 5 ∧ (7 : Int) < 10 → CLAMP 7 10 5 = 5)
      ∧ MIN (MAX 7 10) 5 = 5
      ∧ ((7 : Int) ≤ 5 → CLAMP 7 10 5 ≠ MIN (MAX 7 10) 5)
      ∧ (∃ x0 : Int, CLAMP x0 10 5 ≠ MIN (MAX x0 10) 5) :=
  ⟨by decide, CLAMP_inverted 7 10 5 (by decide)⟩

end Utils
